import Mathlib

/-!
Shallow embedding of the highlight locator in `src/components/PDFViewer.tsx`
(the `useEffect` guard and the `calculateHighlights` closure, lines 82-204).

Modelling conventions:
* A text node's `textContent` is a `List Char`; the page's text-node snapshot
  is a `List (List Char)` in tree-walker order.
* The DOM range construction plus `getClientRects` (which may throw) is an
  abstract provider `CharRef → CharRef → Except Unit (List HighlightRect)`;
  `Except.error` models a thrown exception, caught by the `try/catch`.
  The `index + 1` end offset of `range.setEnd` is absorbed into the provider.
* `pageElement?.getBoundingClientRect()` is an `Option HighlightRect`.
* `setHighlights hs` is modelled by returning `some hs`; an early `return`
  that never calls `setHighlights` is modelled by `none`.  `runHighlight`
  folds that result over the previous component state.
* JavaScript numbers in the geometric comparisons (`* 0.9`, `* 1.5`) are
  modelled exactly by `ℚ`.
-/

/-- A (text node, intra-node offset) pair, the entries of `charMap`. -/
structure CharRef where
  node : Nat
  index : Nat
deriving DecidableEq

/-- A rectangle {left, top, width, height}; also used for `pageRect`. -/
structure HighlightRect where
  left : ℚ
  top : ℚ
  width : ℚ
  height : ℚ
deriving DecidableEq

/-- A matched span over the normalized page text. -/
structure MatchSpan where
  startIndex : Nat
  endIndex : Nat
deriving DecidableEq

/-- The test `/[a-zA-Z0-9一-龥]/.test(char)` (line 106). -/
def isAlphaNumeric (c : Char) : Bool :=
  (('a' ≤ c) && (c ≤ 'z')) || (('A' ≤ c) && (c ≤ 'Z')) ||
  (('0' ≤ c) && (c ≤ '9')) || ((0x4e00 ≤ c.toNat) && (c.toNat ≤ 0x9fa5))

/-- The inner loop of the map-building pass (lines 110-116) over one text
node whose remaining characters start at intra-node offset `i`: kept
characters are lower-cased and paired with their `(node, index)` origin. -/
def fragPairs (ni : Nat) : Nat → List Char → List (Char × CharRef)
  | _, [] => []
  | i, c :: rest =>
    if isAlphaNumeric c then (c.toLower, ⟨ni, i⟩) :: fragPairs ni (i + 1) rest
    else fragPairs ni (i + 1) rest

/-- The outer loop over `textNodes` (line 108), numbering nodes from `ni`. -/
def pagePairs : Nat → List (List Char) → List (Char × CharRef)
  | _, [] => []
  | ni, f :: rest => fragPairs ni 0 f ++ pagePairs (ni + 1) rest

/-- `normalizedPdfText` accumulated by the loop (line 103). -/
def normalizedPdfText (frags : List (List Char)) : List Char :=
  (pagePairs 0 frags).map Prod.fst

/-- `charMap` accumulated by the loop (line 104). -/
def charMap (frags : List (List Char)) : List CharRef :=
  (pagePairs 0 frags).map Prod.snd

/-- `highlightText.split('').filter(isAlphaNumeric).join('').toLowerCase()`
(line 120).  On the kept alphabet (ASCII alphanumerics and CJK) JavaScript
`toLowerCase` agrees with per-character `Char.toLower`. -/
def normalizeQuery (q : List Char) : List Char :=
  (q.filter isAlphaNumeric).map Char.toLower

/-- `hay.indexOf(pat)` on normalized character lists: the least index at
which `pat` occurs as a contiguous substring, else `none` (JS `-1`). -/
def firstMatch : List Char → List Char → Option Nat
  | [], pat => if pat.isEmpty then some 0 else none
  | a :: rest, pat =>
    if pat.isPrefixOf (a :: rest) then some 0
    else (firstMatch rest pat).map (· + 1)

/-- `hay.indexOf(pat, start)`: first occurrence at or after `start`. -/
def firstMatchFrom (hay pat : List Char) (start : Nat) : Option Nat :=
  (firstMatch (hay.drop start) pat).map (· + start)

/-- The head/tail anchor fallback body (lines 135-151), parameterized by the
anchor length `ANCHOR_LEN`.  The distance test compares the head match start
with the tail match start: `(tailIndex - headIndex) < normalizedQuery.length * 1.5`. -/
def anchorFallback (normPdf normQ : List Char) (anchorLen : Nat) : Option MatchSpan :=
  let head := normQ.take anchorLen
  let tail := normQ.drop (normQ.length - anchorLen)
  match firstMatch normPdf head with
  | none => none
  | some headIndex =>
    let searchStart := headIndex + anchorLen
    match firstMatchFrom normPdf tail searchStart with
    | none => none
    | some tailIndex =>
      if ((tailIndex : ℚ) - (headIndex : ℚ)) < (normQ.length : ℚ) * 1.5 then
        some ⟨headIndex, tailIndex + tail.length - 1⟩
      else none

/-- The match logic (lines 123-153): exact `indexOf`, else the anchor
fallback guarded by `ANCHOR_LEN > 5` with `ANCHOR_LEN = min 30 (len / 2)`. -/
def computeSpan (normPdf normQ : List Char) : Option MatchSpan :=
  match firstMatch normPdf normQ with
  | some s => some ⟨s, s + normQ.length - 1⟩
  | none =>
    let anchorLen := min 30 (normQ.length / 2)
    if anchorLen > 5 then anchorFallback normPdf normQ anchorLen else none

/-- The rectangle filtering and relativization loop (lines 176-188):
degenerate rectangles (width or height < 1) are skipped, rectangles with
width > 0.9 × page width AND height > 0.9 × page height are skipped, the
rest are shifted by the page origin. -/
def projectRects (rects : List HighlightRect) (pageRect : HighlightRect) :
    List HighlightRect :=
  rects.filterMap fun r =>
    if r.width < 1 ∨ r.height < 1 then none
    else if r.width > pageRect.width * 0.9 ∧ r.height > pageRect.height * 0.9 then none
    else some ⟨r.left - pageRect.left, r.top - pageRect.top, r.width, r.height⟩

/-- Lines 160-198: the defensive `charMap` bounds check, the `try` block
(range construction and `getClientRects`, whose exception is caught and
turns the result into `setHighlights([])`), the `pageRect` availability
check (bare `return`, no state write), and the filtering loop. -/
def projectSpan (cm : List CharRef) (sp : MatchSpan)
    (getRects : CharRef → CharRef → Except Unit (List HighlightRect))
    (pageRect : Option HighlightRect) : Option (List HighlightRect) :=
  match cm.get? sp.startIndex, cm.get? sp.endIndex with
  | some startRef, some endRef =>
    (match getRects startRef endRef with
     | Except.error _ => some []
     | Except.ok rects =>
       match pageRect with
       | none => none
       | some p => some (projectRects rects p))
  | _, _ => none

/-- The environment a single highlight computation reads: whether the text
layer element exists, the text-node snapshot, the range-to-rectangles
provider, and the page bounding box. -/
structure Env where
  textLayer : Bool
  fragments : List (List Char)
  getRects : CharRef → CharRef → Except Unit (List HighlightRect)
  pageRect : Option HighlightRect

/-- The `calculateHighlights` closure (lines 89-199).  `some hs` means
`setHighlights hs` was called; `none` means the closure returned without
writing. -/
def calculateHighlights (env : Env) (highlightText : List Char) :
    Option (List HighlightRect) :=
  if env.textLayer = false then none
  else if env.fragments.isEmpty then none
  else
    let normPdf := normalizedPdfText env.fragments
    let normQ := normalizeQuery highlightText
    if normQ.length < 5 then none
    else
      match computeSpan normPdf normQ with
      | none => some []
      | some sp => projectSpan (charMap env.fragments) sp env.getRects env.pageRect

/-- The effect body (lines 82-204): the basic guard (line 84) clears the
highlights when the query is null/empty/short or the layer is not ready or
the container ref is unset; otherwise the debounced `calculateHighlights`
runs. -/
def highlightUpdate (env : Env) (highlightText : Option (List Char))
    (textLayerReady containerPresent : Bool) : Option (List HighlightRect) :=
  match highlightText with
  | none => some []
  | some q =>
    if q.length < 5 then some []
    else if textLayerReady = false then some []
    else if containerPresent = false then some []
    else calculateHighlights env q

/-- The observable `highlights` state after one run: a write replaces the
previous rectangles, an early return leaves them unchanged. -/
def runHighlight (env : Env) (highlightText : Option (List Char))
    (textLayerReady containerPresent : Bool) (old : List HighlightRect) :
    List HighlightRect :=
  match highlightUpdate env highlightText textLayerReady containerPresent with
  | some hs => hs
  | none => old

/-! ### Concrete instances used by witnesses and counterexamples -/

/-- Text-node snapshot normalizing to `thequickbrownfoxjumpsoverthelazydog`. -/
def exFrags : List (List Char) :=
  ["The quick brown ".toList, "fox jumps over".toList, " the lazy dog".toList]

/-- A query normalizing to `brownfoxjumps`. -/
def exQuery : List Char := "Brown fox jumps!".toList

/-- An environment whose provider renders one well-formed rectangle. -/
def exEnv : Env :=
  { textLayer := true
    fragments := exFrags
    getRects := fun _ _ => Except.ok [⟨10, 10, 50, 12⟩]
    pageRect := some ⟨0, 0, 600, 800⟩ }

/-- Like `exEnv` but the range/rectangle provider throws. -/
def errEnv : Env :=
  { textLayer := true
    fragments := exFrags
    getRects := fun _ _ => Except.error ()
    pageRect := some ⟨0, 0, 600, 800⟩ }

/-- Like `exEnv` but the page bounding box is unavailable. -/
def noPageEnv : Env :=
  { textLayer := true
    fragments := exFrags
    getRects := fun _ _ => Except.ok [⟨10, 10, 50, 12⟩]
    pageRect := none }

/-- Like `exEnv` but the text layer element is missing. -/
def noLayerEnv : Env :=
  { textLayer := false
    fragments := exFrags
    getRects := fun _ _ => Except.ok [⟨10, 10, 50, 12⟩]
    pageRect := some ⟨0, 0, 600, 800⟩ }

/-- Page text for the anchor-distance counterexample: the 10-character head
anchor, fifteen filler characters, then the 10-character tail anchor. -/
def cexNP : List Char := "abcdefghijzzzzzzzzzzzzzzzklmnopqrst".toList

/-- A 20-character query whose exact match fails against `cexNP`. -/
def cexNQ : List Char := "abcdefghijklmnopqrst".toList

/-- A pre-existing highlight rectangle, for state-transition claims. -/
def oldRect : HighlightRect := ⟨1, 2, 3, 4⟩

/-! ### Substring-search lemmas -/

theorem isPrefixOf_iff_append {p l : List Char} :
    p.isPrefixOf l = true ↔ ∃ t, l = p ++ t := by
  induction p generalizing l with
  | nil => simp [List.isPrefixOf]
  | cons a as ih =>
    cases l with
    | nil => simp [List.isPrefixOf]
    | cons b bs =>
      simp only [List.isPrefixOf, Bool.and_eq_true, beq_iff_eq, ih, List.cons_append,
        List.cons.injEq]
      constructor
      · rintro ⟨rfl, t, rfl⟩
        exact ⟨t, rfl, rfl⟩
      · rintro ⟨t, rfl, rfl⟩
        exact ⟨rfl, t, rfl⟩

theorem length_le_of_isPrefixOf {p l : List Char} (h : p.isPrefixOf l = true) :
    p.length ≤ l.length := by
  obtain ⟨t, rfl⟩ := isPrefixOf_iff_append.mp h
  simp

theorem isPrefixOf_nil_right {p : List Char} (h : p.isPrefixOf [] = true) : p = [] := by
  cases p with
  | nil => rfl
  | cons a as => simp [List.isPrefixOf] at h

theorem firstMatch_le {hay pat : List Char} {k : Nat}
    (h : firstMatch hay pat = some k) : k ≤ hay.length := by
  induction hay generalizing k with
  | nil =>
    simp only [firstMatch] at h
    split at h
    · exact (Option.some.inj h) ▸ Nat.le_refl 0
    · exact absurd h (Option.noConfusion)
  | cons a rest ih =>
    simp only [firstMatch] at h
    split at h
    · exact (Option.some.inj h) ▸ Nat.zero_le _
    · obtain ⟨k0, hk0, rfl⟩ := Option.map_eq_some'.mp h
      simpa using Nat.succ_le_succ (ih hk0)

theorem firstMatch_spec {hay pat : List Char} {k : Nat}
    (h : firstMatch hay pat = some k) :
    pat.isPrefixOf (hay.drop k) = true ∧
      ∀ j, j < k → pat.isPrefixOf (hay.drop j) = false := by
  induction hay generalizing k with
  | nil =>
    simp only [firstMatch] at h
    split at h
    next hp =>
      cases Option.some.inj h
      refine ⟨?_, fun j hj => absurd hj (Nat.not_lt_zero j)⟩
      simp_all [List.isEmpty_iff]
    next => exact absurd h (Option.noConfusion)
  | cons a rest ih =>
    simp only [firstMatch] at h
    split at h
    next hp =>
      cases Option.some.inj h
      exact ⟨hp, fun j hj => absurd hj (Nat.not_lt_zero j)⟩
    next hp =>
      obtain ⟨k0, hk0, rfl⟩ := Option.map_eq_some'.mp h
      obtain ⟨h1, h2⟩ := ih hk0
      refine ⟨h1, fun j hj => ?_⟩
      cases j with
      | zero => simpa using Bool.of_not_eq_true hp
      | succ j0 => exact h2 j0 (Nat.lt_of_succ_lt_succ hj)

theorem firstMatch_isSome {hay pat : List Char} {j : Nat}
    (h : pat.isPrefixOf (hay.drop j) = true) :
    ∃ k, firstMatch hay pat = some k ∧ k ≤ j := by
  induction hay generalizing j with
  | nil =>
    rw [List.drop_nil] at h
    have hp := isPrefixOf_nil_right h
    exact ⟨0, by simp [firstMatch, hp], Nat.zero_le j⟩
  | cons a rest ih =>
    by_cases hp : pat.isPrefixOf (a :: rest) = true
    · exact ⟨0, by simp [firstMatch, hp], Nat.zero_le j⟩
    · cases j with
      | zero => simp only [List.drop_zero] at h; exact absurd h hp
      | succ j0 =>
        rw [List.drop_succ_cons] at h
        obtain ⟨k0, hk0, hle⟩ := ih h
        refine ⟨k0 + 1, ?_, Nat.succ_le_succ hle⟩
        simp [firstMatch, hp, hk0]

theorem firstMatch_len {hay pat : List Char} {k : Nat}
    (h : firstMatch hay pat = some k) : k + pat.length ≤ hay.length := by
  have h1 := (firstMatch_spec h).1
  have h2 := length_le_of_isPrefixOf h1
  have h3 := firstMatch_le h
  rw [List.length_drop] at h2
  omega

theorem firstMatchFrom_spec {hay pat : List Char} {start t : Nat}
    (hp : 0 < pat.length) (h : firstMatchFrom hay pat start = some t) :
    start ≤ t ∧ pat.isPrefixOf (hay.drop t) = true ∧ t + pat.length ≤ hay.length := by
  obtain ⟨k, hk, rfl⟩ := Option.map_eq_some'.mp h
  have h1 := (firstMatch_spec hk).1
  have h2 := firstMatch_len hk
  rw [List.drop_drop] at h1
  rw [List.length_drop] at h2
  have hne : hay.length - start > 0 := by
    by_contra hc
    have hdn : hay.drop start = [] := by
      apply List.drop_eq_nil_of_le
      omega
    rw [hdn] at hk
    simp only [firstMatch] at hk
    split at hk
    · simp_all [List.isEmpty_iff]
    · exact absurd hk (Option.noConfusion)
  refine ⟨Nat.le_add_left start k, ?_, by omega⟩
  rw [Nat.add_comm k start]
  exact h1

/-! ### Span bounds -/

theorem computeSpan_bounds {normPdf normQ : List Char} {sp : MatchSpan}
    (hq : 1 ≤ normQ.length) (h : computeSpan normPdf normQ = some sp) :
    sp.startIndex ≤ sp.endIndex ∧ sp.endIndex < normPdf.length := by
  unfold computeSpan at h
  cases hfm : firstMatch normPdf normQ with
  | some s =>
    rw [hfm] at h
    simp only at h
    cases Option.some.inj h
    have hlen := firstMatch_len hfm
    constructor <;> simp only <;> omega
  | none =>
    rw [hfm] at h
    simp only at h
    split at h
    case isTrue hA =>
      unfold anchorFallback at h
      simp only at h
      cases hh : firstMatch normPdf (normQ.take (min 30 (normQ.length / 2))) with
      | none => rw [hh] at h; exact absurd h (Option.noConfusion)
      | some headIndex =>
        rw [hh] at h
        simp only at h
        cases ht : firstMatchFrom normPdf (normQ.drop (normQ.length - min 30 (normQ.length / 2)))
            (headIndex + min 30 (normQ.length / 2)) with
        | none => rw [ht] at h; exact absurd h (Option.noConfusion)
        | some tailIndex =>
          rw [ht] at h
          simp only at h
          split at h
          · cases Option.some.inj h
            have hAle : min 30 (normQ.length / 2) ≤ normQ.length := by omega
            have htl : (normQ.drop (normQ.length - min 30 (normQ.length / 2))).length
                = min 30 (normQ.length / 2) := by
              rw [List.length_drop]
              omega
            have htpos : 0 < (normQ.drop (normQ.length - min 30 (normQ.length / 2))).length := by
              omega
            obtain ⟨hst, _, hbound⟩ := firstMatchFrom_spec htpos ht
            constructor <;> simp only <;> omega
          · exact absurd h (Option.noConfusion)
    case isFalse => exact absurd h (Option.noConfusion)

/-! ### Character-map lemmas -/

theorem charMap_length (frags : List (List Char)) :
    (charMap frags).length = (normalizedPdfText frags).length := by
  simp [charMap, normalizedPdfText]

theorem charMap_get?_isSome {frags : List (List Char)} {n : Nat}
    (h : n < (charMap frags).length) : ((charMap frags).get? n).isSome := by
  rw [List.get?_eq_get h]
  rfl

theorem fragPairs_mem {ni i : Nat} {s : List Char} {p : Char × CharRef}
    (h : p ∈ fragPairs ni i s) :
    p.2.node = ni ∧ i ≤ p.2.index ∧ p.2.index < i + s.length := by
  induction s generalizing i with
  | nil => simp [fragPairs] at h
  | cons c rest ih =>
    simp only [fragPairs] at h
    split at h
    · rcases List.mem_cons.mp h with hEq | hMem
      · subst hEq
        refine ⟨rfl, Nat.le_refl i, ?_⟩
        simp only [List.length_cons]
        omega
      · obtain ⟨h1, h2, h3⟩ := ih hMem
        refine ⟨h1, by omega, ?_⟩
        simp only [List.length_cons]
        omega
    · obtain ⟨h1, h2, h3⟩ := ih h
      refine ⟨h1, by omega, ?_⟩
      simp only [List.length_cons]
      omega

theorem fragPairs_pairwise (ni i : Nat) (s : List Char) :
    (fragPairs ni i s).Pairwise (fun a b => a.2.index < b.2.index) := by
  induction s generalizing i with
  | nil => simp [fragPairs]
  | cons c rest ih =>
    simp only [fragPairs]
    split
    · refine List.Pairwise.cons ?_ (ih (i + 1))
      intro b hb
      have hm := fragPairs_mem hb
      simp only
      omega
    · exact ih (i + 1)

theorem pagePairs_mem {ni : Nat} {fs : List (List Char)} {p : Char × CharRef}
    (h : p ∈ pagePairs ni fs) :
    ni ≤ p.2.node ∧
      ∃ f, fs.get? (p.2.node - ni) = some f ∧ p.2.index < f.length := by
  induction fs generalizing ni with
  | nil => simp [pagePairs] at h
  | cons f rest ih =>
    simp only [pagePairs, List.mem_append] at h
    rcases h with hl | hr
    · have hm := fragPairs_mem hl
      refine ⟨hm.1 ▸ Nat.le_refl ni, f, ?_, by omega⟩
      rw [hm.1, Nat.sub_self]
      rfl
    · obtain ⟨hle, g, hg, hidx⟩ := ih hr
      refine ⟨by omega, g, ?_, hidx⟩
      have heq : p.2.node - ni = (p.2.node - (ni + 1)) + 1 := by omega
      rw [heq]
      simpa using hg

theorem pagePairs_pairwise (ni : Nat) (fs : List (List Char)) :
    (pagePairs ni fs).Pairwise
      (fun a b => a.2.node < b.2.node ∨ (a.2.node = b.2.node ∧ a.2.index < b.2.index)) := by
  induction fs generalizing ni with
  | nil => simp [pagePairs]
  | cons f rest ih =>
    simp only [pagePairs]
    apply List.pairwise_append.mpr
    refine ⟨?_, ih (ni + 1), ?_⟩
    · apply List.Pairwise.imp_of_mem ?_ (fragPairs_pairwise ni 0 f)
      intro a b ha hb hlt
      have hma := fragPairs_mem ha
      have hmb := fragPairs_mem hb
      exact Or.inr ⟨hma.1.trans hmb.1.symm, hlt⟩
    · intro a ha b hb
      have hma := fragPairs_mem ha
      have hmb := pagePairs_mem hb
      exact Or.inl (by omega)

/-! ### Rectangle-projection lemmas -/

theorem projectRects_mem_spec {rects : List HighlightRect} {p r : HighlightRect}
    (h : r ∈ projectRects rects p) :
    1 ≤ r.width ∧ 1 ≤ r.height ∧
      ¬(r.width > p.width * 0.9 ∧ r.height > p.height * 0.9) := by
  obtain ⟨r0, hr0, hf⟩ := List.mem_filterMap.mp h
  split at hf
  · exact absurd hf (Option.noConfusion)
  next h1 =>
    split at hf
    next h2 => exact absurd hf (Option.noConfusion)
    next h2 =>
      cases Option.some.inj hf
      rw [not_or] at h1
      exact ⟨not_lt.mp h1.1, not_lt.mp h1.2, h2⟩

theorem mem_projectRects {rects : List HighlightRect} {p r0 : HighlightRect}
    (hmem : r0 ∈ rects) (hw : 1 ≤ r0.width) (hh : 1 ≤ r0.height)
    (hnf : ¬(r0.width > p.width * 0.9 ∧ r0.height > p.height * 0.9)) :
    (⟨r0.left - p.left, r0.top - p.top, r0.width, r0.height⟩ : HighlightRect) ∈
      projectRects rects p := by
  apply List.mem_filterMap.mpr
  refine ⟨r0, hmem, ?_⟩
  have h1 : ¬(r0.width < 1 ∨ r0.height < 1) := by
    rw [not_or]
    exact ⟨not_lt.mpr hw, not_lt.mpr hh⟩
  rw [if_neg h1, if_neg hnf]

/-! ### Shared state-transition helpers -/

theorem calculateHighlights_normShort (env : Env) (q : List Char)
    (hnq : (normalizeQuery q).length < 5) : calculateHighlights env q = none := by
  unfold calculateHighlights
  cases hl : env.textLayer
  · simp
  · cases hfe : env.fragments.isEmpty
    · simp [hnq]
    · simp

theorem normShort_unchanged (env : Env) (q : List Char) (old : List HighlightRect)
    (hq : 5 ≤ q.length) (hnq : (normalizeQuery q).length < 5) :
    runHighlight env (some q) true true old = old := by
  have hcalc := calculateHighlights_normShort env q hnq
  unfold runHighlight highlightUpdate
  simp [hcalc, show ¬(q.length < 5) from by omega]

/-! ### Claim theorems -/

/-- Claim C7: the `charMap` built by each highlight computation is strictly
monotonic in normalized-text order (successive entries have strictly
increasing (node, intra-node offset) pairs in traversal order), and every
entry points at an existing text node and a valid offset within that node's
text. -/
theorem charMap_strictly_monotone_and_valid (frags : List (List Char)) :
    (charMap frags).Pairwise
      (fun a b => a.node < b.node ∨ (a.node = b.node ∧ a.index < b.index)) ∧
    ∀ e, e ∈ charMap frags → ∃ f, frags.get? e.node = some f ∧ e.index < f.length := by
  constructor
  · rw [charMap, List.pairwise_map]
    exact pagePairs_pairwise 0 frags
  · intro e he
    rw [charMap] at he
    obtain ⟨p, hp, rfl⟩ := List.mem_map.mp he
    have hm := pagePairs_mem hp
    simpa using hm.2

/-- Witness for C7 at the concrete snapshot `exFrags`: entry `⟨0, 10⟩` is in
the map and resolves to a valid offset of the first text node. -/
theorem charMap_strictly_monotone_and_valid_wit :
    (⟨0, 10⟩ : CharRef) ∈ charMap exFrags ∧
    ∃ f, exFrags.get? (0 : Nat) = some f ∧ 10 < f.length := by
  refine ⟨by decide, ?_⟩
  exact (charMap_strictly_monotone_and_valid exFrags).2 ⟨0, 10⟩ (by decide)

/-- Claim C8: one highlight run is a deterministic function of its inputs;
running it a second time on identical inputs and an unchanged snapshot
leaves the rectangle state exactly where the first run put it. -/
theorem locate_idempotent (env : Env) (ht : Option (List Char)) (r c : Bool)
    (old : List HighlightRect) :
    runHighlight env ht r c (runHighlight env ht r c old) = runHighlight env ht r c old := by
  cases h : highlightUpdate env ht r c with
  | none => simp [runHighlight, h]
  | some hs => simp [runHighlight, h]

/-- Claim C10: whenever either matching step produces a span, both span ends
are in bounds for the character map built from the same snapshot, so the
defensive `charMap` lookups succeed. -/
theorem produced_span_in_bounds (frags : List (List Char)) (normQ : List Char)
    (sp : MatchSpan) (h1 : 1 ≤ normQ.length)
    (h2 : computeSpan (normalizedPdfText frags) normQ = some sp) :
    sp.startIndex ≤ sp.endIndex ∧ sp.endIndex < (charMap frags).length ∧
    ((charMap frags).get? sp.startIndex).isSome ∧
    ((charMap frags).get? sp.endIndex).isSome := by
  obtain ⟨ha, hb⟩ := computeSpan_bounds h1 h2
  have hcm := charMap_length frags
  exact ⟨ha, by omega, charMap_get?_isSome (by omega), charMap_get?_isSome (by omega)⟩

/-- Witness for C10 at the concrete fox-page snapshot and query. -/
theorem produced_span_in_bounds_wit :
    1 ≤ (normalizeQuery exQuery).length ∧
    computeSpan (normalizedPdfText exFrags) (normalizeQuery exQuery) = some ⟨8, 20⟩ ∧
    (8 : Nat) ≤ 20 ∧ 20 < (charMap exFrags).length ∧
    ((charMap exFrags).get? 8).isSome ∧ ((charMap exFrags).get? 20).isSome := by
  refine ⟨by decide, by with_unfolding_all decide, ?_⟩
  exact produced_span_in_bounds exFrags (normalizeQuery exQuery) ⟨8, 20⟩ (by decide)
    (by with_unfolding_all decide)

/-- Claim C2 counterexample: a rectangle covering exactly 90 % of both page
dimensions (so "at least 90 %") is NOT excluded: the source filter drops a
rectangle only when both dimensions STRICTLY exceed 90 %. -/
theorem full_page_filter_boundary_cex :
    ((90 : ℚ) ≥ 100 * 0.9) ∧
    projectRects [⟨10, 10, 90, 90⟩] ⟨0, 0, 100, 100⟩ = [⟨10, 10, 90, 90⟩] := by
  constructor
  · norm_num
  · with_unfolding_all decide

/-- Claim C2 (amended): every rectangle surviving projection fails the
strict full-page test: it is not the case that its width strictly exceeds
90 % of the page width and its height strictly exceeds 90 % of the page
height. -/
theorem full_page_rects_excluded (rects : List HighlightRect) (p r : HighlightRect)
    (h : r ∈ projectRects rects p) :
    ¬(r.width > p.width * 0.9 ∧ r.height > p.height * 0.9) :=
  (projectRects_mem_spec h).2.2

/-- Witness for C2 at a concrete surviving rectangle. -/
theorem full_page_rects_excluded_wit :
    (⟨10, 10, 50, 12⟩ : HighlightRect) ∈ projectRects [⟨10, 10, 50, 12⟩] ⟨0, 0, 600, 800⟩ ∧
    ¬((50 : ℚ) > 600 * 0.9 ∧ (12 : ℚ) > 800 * 0.9) := by
  refine ⟨by with_unfolding_all decide, ?_⟩
  exact full_page_rects_excluded [⟨10, 10, 50, 12⟩] ⟨0, 0, 600, 800⟩ ⟨10, 10, 50, 12⟩
    (by with_unfolding_all decide)

/-- Claim C3 counterexample: a raw query of length ≥ 5 whose normalized form
is shorter than 5 characters does NOT produce an empty rectangle list — the
computation returns without writing, so a previous non-empty rectangle set
survives. -/
theorem short_normalized_query_cex :
    5 ≤ ("a b c d".toList).length ∧
    (normalizeQuery ("a b c d".toList)).length < 5 ∧
    runHighlight exEnv (some ("a b c d".toList)) true true [oldRect] = [oldRect] ∧
    [oldRect] ≠ ([] : List HighlightRect) := by
  refine ⟨by decide, by decide, by decide, by decide⟩

/-- Claim C3 (amended): a null query or a raw query shorter than 5
characters clears the rectangle state to empty regardless of page content;
a raw query of length ≥ 5 whose normalized form is shorter than 5
characters instead makes the computation return without writing, leaving
the previous rectangle state unchanged.  No case errors. -/
theorem short_query_behavior (env : Env) (q : List Char) (old : List HighlightRect)
    (r c : Bool) :
    runHighlight env none r c old = [] ∧
    (q.length < 5 → runHighlight env (some q) r c old = []) ∧
    (5 ≤ q.length → (normalizeQuery q).length < 5 →
        runHighlight env (some q) true true old = old) := by
  refine ⟨rfl, ?_, ?_⟩
  · intro h
    unfold runHighlight highlightUpdate
    simp [h]
  · intro hq hnq
    exact normShort_unchanged env q old hq hnq

/-- Witness for C3 at concrete queries and a concrete non-empty previous
state. -/
theorem short_query_behavior_wit :
    runHighlight exEnv none true true [oldRect] = [] ∧
    ("ab".toList).length < 5 ∧
    runHighlight exEnv (some ("ab".toList)) true true [oldRect] = [] ∧
    5 ≤ ("a b c d".toList).length ∧
    (normalizeQuery ("a b c d".toList)).length < 5 ∧
    runHighlight exEnv (some ("a b c d".toList)) true true [oldRect] = [oldRect] := by
  have h1 := short_query_behavior exEnv ("ab".toList) [oldRect] true true
  have h2 := short_query_behavior exEnv ("a b c d".toList) [oldRect] true true
  exact ⟨h1.1, by decide, h1.2.1 (by decide), by decide, by decide,
    h2.2.2 (by decide) (by decide)⟩

/-- Claim C5: the anchor fallback runs only when the exact substring match
fails; the anchor length is `min 30 (queryLength / 2)`; when that length
does not exceed 5 the fallback is skipped and no match is produced. -/
theorem anchor_gating (normPdf normQ : List Char) :
    (∀ s, firstMatch normPdf normQ = some s →
        computeSpan normPdf normQ = some ⟨s, s + normQ.length - 1⟩) ∧
    (firstMatch normPdf normQ = none →
        computeSpan normPdf normQ =
          if 5 < min 30 (normQ.length / 2) then
            anchorFallback normPdf normQ (min 30 (normQ.length / 2))
          else none) ∧
    (firstMatch normPdf normQ = none → min 30 (normQ.length / 2) ≤ 5 →
        computeSpan normPdf normQ = none) := by
  refine ⟨?_, ?_, ?_⟩
  · intro s hs
    unfold computeSpan
    rw [hs]
  · intro hn
    unfold computeSpan
    rw [hn]
  · intro hn hle
    unfold computeSpan
    rw [hn]
    simp only
    rw [if_neg (by omega)]

/-- Witness for C5: the fox page exercises the exact branch; a short query
against a mismatched page exercises the skipped-fallback branch. -/
theorem anchor_gating_wit :
    firstMatch (normalizedPdfText exFrags) (normalizeQuery exQuery) = some 8 ∧
    computeSpan (normalizedPdfText exFrags) (normalizeQuery exQuery) =
      some ⟨8, 8 + (normalizeQuery exQuery).length - 1⟩ ∧
    firstMatch ("abcdef".toList) ("ghijklmnop".toList) = none ∧
    min 30 (("ghijklmnop".toList).length / 2) ≤ 5 ∧
    computeSpan ("abcdef".toList) ("ghijklmnop".toList) = none := by
  refine ⟨by decide, ?_, by decide, by decide, ?_⟩
  · exact (anchor_gating _ _).1 8 (by decide)
  · exact (anchor_gating _ _).2.2 (by decide) (by decide)

/-- Claim C6: when the range/rectangle extraction throws, the exception is
caught inside the computation, the rectangle state is cleared to the empty
list, and no error escapes (the computation is total and returns a
written-empty result). -/
theorem exceptions_cleared (env : Env) (q : List Char) (sp : MatchSpan)
    (hlayer : env.textLayer = true)
    (h5 : 5 ≤ (normalizeQuery q).length)
    (hspan : computeSpan (normalizedPdfText env.fragments) (normalizeQuery q) = some sp)
    (herr : ∀ a b, env.getRects a b = Except.error ()) :
    calculateHighlights env q = some [] := by
  obtain ⟨hb1, hb2⟩ := computeSpan_bounds (by omega) hspan
  have hcm := charMap_length env.fragments
  have hs1 : ((charMap env.fragments).get? sp.startIndex).isSome :=
    charMap_get?_isSome (by omega)
  have hs2 : ((charMap env.fragments).get? sp.endIndex).isSome :=
    charMap_get?_isSome (by omega)
  obtain ⟨a, ha⟩ := Option.isSome_iff_exists.mp hs1
  obtain ⟨b, hb⟩ := Option.isSome_iff_exists.mp hs2
  have hne : env.fragments.isEmpty = false := by
    cases hfr : env.fragments with
    | nil =>
      rw [hfr] at hb2
      simp [normalizedPdfText, pagePairs] at hb2
    | cons f rest => rfl
  have hga : (charMap env.fragments)[sp.startIndex]? = some a := by
    rw [← List.get?_eq_getElem?]
    exact ha
  have hgb : (charMap env.fragments)[sp.endIndex]? = some b := by
    rw [← List.get?_eq_getElem?]
    exact hb
  unfold calculateHighlights projectSpan
  simp [hlayer, hne, hspan, ha, hb, hga, hgb, herr a b,
    show ¬((normalizeQuery q).length < 5) from by omega]

/-- Witness for C6: on the fox page with a throwing provider, the result is
a written empty list. -/
theorem exceptions_cleared_wit :
    errEnv.textLayer = true ∧
    5 ≤ (normalizeQuery exQuery).length ∧
    computeSpan (normalizedPdfText errEnv.fragments) (normalizeQuery exQuery) =
      some ⟨8, 20⟩ ∧
    calculateHighlights errEnv exQuery = some [] := by
  refine ⟨rfl, by decide, by with_unfolding_all decide, ?_⟩
  exact exceptions_cleared errEnv exQuery ⟨8, 20⟩ rfl (by decide)
    (by with_unfolding_all decide) (fun a b => rfl)

theorem span_refs {frags : List (List Char)} {normQ : List Char} {sp : MatchSpan}
    (h1 : 1 ≤ normQ.length)
    (h2 : computeSpan (normalizedPdfText frags) normQ = some sp) :
    frags.isEmpty = false ∧
    ∃ a b, (charMap frags)[sp.startIndex]? = some a ∧
      (charMap frags)[sp.endIndex]? = some b := by
  obtain ⟨hb1, hb2⟩ := computeSpan_bounds h1 h2
  have hcm := charMap_length frags
  have hs1 : ((charMap frags).get? sp.startIndex).isSome := charMap_get?_isSome (by omega)
  have hs2 : ((charMap frags).get? sp.endIndex).isSome := charMap_get?_isSome (by omega)
  obtain ⟨a, ha⟩ := Option.isSome_iff_exists.mp hs1
  obtain ⟨b, hb⟩ := Option.isSome_iff_exists.mp hs2
  refine ⟨?_, a, b, ?_, ?_⟩
  · cases hfr : frags with
    | nil =>
      rw [hfr] at hb2
      simp [normalizedPdfText, pagePairs] at hb2
    | cons f rest => rfl
  · rw [← List.get?_eq_getElem?]
    exact ha
  · rw [← List.get?_eq_getElem?]
    exact hb

/-- Claim C9: each early-return path (missing text layer, no text nodes,
raw-length-≥-5 query normalizing below 5 characters, missing page bounding
box, failed character-index lookup) leaves the previous rectangle state
unchanged rather than clearing it. -/
theorem no_write_paths (env : Env) (q : List Char) (old : List HighlightRect)
    (sp : MatchSpan) (cm : List CharRef)
    (g : CharRef → CharRef → Except Unit (List HighlightRect))
    (pr : Option HighlightRect) (rects : List HighlightRect) :
    (5 ≤ q.length → env.textLayer = false →
        runHighlight env (some q) true true old = old) ∧
    (5 ≤ q.length → env.fragments.isEmpty = true →
        runHighlight env (some q) true true old = old) ∧
    (5 ≤ q.length → (normalizeQuery q).length < 5 →
        runHighlight env (some q) true true old = old) ∧
    (5 ≤ q.length → env.pageRect = none →
        computeSpan (normalizedPdfText env.fragments) (normalizeQuery q) = some sp →
        (∀ a b, env.getRects a b = Except.ok rects) →
        runHighlight env (some q) true true old = old) ∧
    (cm.get? sp.startIndex = none ∨ cm.get? sp.endIndex = none →
        projectSpan cm sp g pr = none) := by
  refine ⟨?_, ?_, ?_, ?_, ?_⟩
  · intro hq hl
    unfold runHighlight highlightUpdate calculateHighlights
    simp [hl, show ¬(q.length < 5) from by omega]
  · intro hq hfe
    unfold runHighlight highlightUpdate calculateHighlights
    cases hl : env.textLayer <;>
      simp [hl, hfe, show ¬(q.length < 5) from by omega]
  · intro hq hnq
    exact normShort_unchanged env q old hq hnq
  · intro hq hpr hsp hok
    by_cases hnq : (normalizeQuery q).length < 5
    · exact normShort_unchanged env q old hq hnq
    · cases hl : env.textLayer with
      | false =>
        unfold runHighlight highlightUpdate calculateHighlights
        simp [hl, show ¬(q.length < 5) from by omega]
      | true =>
        obtain ⟨hne, a, b, hga, hgb⟩ := span_refs (by omega) hsp
        unfold runHighlight highlightUpdate calculateHighlights projectSpan
        simp [hl, hne, hsp, hga, hgb, hok a b, hpr, hnq,
          show ¬(q.length < 5) from by omega]
  · intro h
    unfold projectSpan
    rcases h with h | h
    · rw [h]
    · rw [h]
      cases cm.get? sp.startIndex <;> rfl

/-- Witness for C9: concrete no-write runs for a missing text layer, a
query normalizing below 5 characters, a missing page bounding box, and a
failed index lookup, each preserving a non-empty previous state. -/
theorem no_write_paths_wit :
    runHighlight noLayerEnv (some exQuery) true true [oldRect] = [oldRect] ∧
    (normalizeQuery ("a b c d".toList)).length < 5 ∧
    runHighlight exEnv (some ("a b c d".toList)) true true [oldRect] = [oldRect] ∧
    noPageEnv.pageRect = none ∧
    runHighlight noPageEnv (some exQuery) true true [oldRect] = [oldRect] ∧
    projectSpan [] ⟨0, 0⟩ noPageEnv.getRects none = none := by
  refine ⟨?_, by decide, ?_, rfl, ?_, ?_⟩
  · exact (no_write_paths noLayerEnv exQuery [oldRect] ⟨8, 20⟩ []
      noPageEnv.getRects none []).1 (by decide) rfl
  · exact (no_write_paths exEnv ("a b c d".toList) [oldRect] ⟨8, 20⟩ []
      noPageEnv.getRects none []).2.2.1 (by decide) (by decide)
  · exact (no_write_paths noPageEnv exQuery [oldRect] ⟨8, 20⟩ []
      noPageEnv.getRects none [⟨10, 10, 50, 12⟩]).2.2.2.1 (by decide) rfl
      (by with_unfolding_all decide) (fun a b => rfl)
  · exact (no_write_paths noPageEnv exQuery [oldRect] ⟨0, 0⟩ []
      noPageEnv.getRects none []).2.2.2.2 (Or.inl rfl)

/-- Claim C1 counterexample: with page text `cexNP` and query `cexNQ`
(length 20, anchors of length 10), the head matches at 0 and the tail at
25, so the tail match END is at index 34.  The distance from the head match
start to the tail match end is 34 > 1.5 × 20 = 30, so under the claim the
span must be rejected — but the code accepts it, because it bounds only the
distance to the tail match START (25 < 30). -/
theorem anchor_distance_cex :
    firstMatch cexNP cexNQ = none ∧
    min 30 (cexNQ.length / 2) = 10 ∧
    firstMatch cexNP (cexNQ.take 10) = some 0 ∧
    firstMatchFrom cexNP (cexNQ.drop 10) 10 = some 25 ∧
    computeSpan cexNP cexNQ = some ⟨0, 34⟩ ∧
    cexNQ.length = 20 ∧
    ¬(((34 : ℚ) - 0) ≤ (20 : ℚ) * 1.5) := by
  refine ⟨by decide, by decide, by decide, by decide,
    by with_unfolding_all decide, by decide, by norm_num⟩

/-- Claim C1 (amended): in the anchor fallback (exact match failed, anchor
length `min 30 (len / 2)` above 5, head anchor found at `headIndex`), the
combined span `[headIndex, tailIndex + tailLength - 1]` is produced exactly
when the tail anchor is found at or after the end of the head match at some
`tailIndex` with `tailIndex - headIndex` (tail match START) strictly less
than `1.5 ×` the normalized query length; otherwise no match is produced. -/
theorem anchor_distance_rule (normPdf normQ : List Char) (headIndex A : Nat)
    (hA : A = min 30 (normQ.length / 2))
    (hexact : firstMatch normPdf normQ = none)
    (h5 : 5 < A)
    (hhead : firstMatch normPdf (normQ.take A) = some headIndex) :
    (∀ tailIndex,
        firstMatchFrom normPdf (normQ.drop (normQ.length - A)) (headIndex + A) =
          some tailIndex →
        (((tailIndex : ℚ) - (headIndex : ℚ) < (normQ.length : ℚ) * 1.5 →
            computeSpan normPdf normQ = some ⟨headIndex, tailIndex + A - 1⟩) ∧
         (¬((tailIndex : ℚ) - (headIndex : ℚ) < (normQ.length : ℚ) * 1.5) →
            computeSpan normPdf normQ = none))) ∧
    (firstMatchFrom normPdf (normQ.drop (normQ.length - A)) (headIndex + A) = none →
        computeSpan normPdf normQ = none) := by
  subst hA
  have htl : (normQ.drop (normQ.length - min 30 (normQ.length / 2))).length
      = min 30 (normQ.length / 2) := by
    rw [List.length_drop]
    omega
  constructor
  · intro tailIndex ht
    constructor
    · intro hcond
      simp [computeSpan, anchorFallback, hexact, h5, hhead, ht, hcond, htl]
    · intro hcond
      simp [computeSpan, anchorFallback, hexact, h5, hhead, ht, hcond]
  · intro ht
    simp [computeSpan, anchorFallback, hexact, h5, hhead, ht]

/-- Witness for the amended C1 at the concrete page/query: the tail is
found at 25, the start-to-start distance 25 < 30 passes, and the span
`⟨0, 34⟩` is produced. -/
theorem anchor_distance_rule_wit :
    firstMatch cexNP cexNQ = none ∧
    5 < min 30 (cexNQ.length / 2) ∧
    firstMatch cexNP (cexNQ.take (min 30 (cexNQ.length / 2))) = some 0 ∧
    firstMatchFrom cexNP (cexNQ.drop (cexNQ.length - min 30 (cexNQ.length / 2)))
      (0 + min 30 (cexNQ.length / 2)) = some 25 ∧
    computeSpan cexNP cexNQ = some ⟨0, 25 + min 30 (cexNQ.length / 2) - 1⟩ := by
  have h := anchor_distance_rule cexNP cexNQ 0 (min 30 (cexNQ.length / 2)) rfl
    (by decide) (by decide) (by decide)
  refine ⟨by decide, by decide, by decide, by decide, ?_⟩
  refine (h.1 25 (by decide)).1 ?_
  have h20 : cexNQ.length = 20 := by decide
  rw [h20]
  norm_num

/-- Claim C4: for a query whose normalized form (length ≥ 5) occurs in the
normalized page text, the exact-match step produces the span
`[s, s + len - 1]` at the first occurrence, and — provided the rectangle
provider yields at least one well-formed rectangle for the resolved range —
`locate` writes at least one non-degenerate rectangle. -/
theorem exact_match_locates (env : Env) (q : List Char) (s : Nat)
    (rects : List HighlightRect) (p r0 : HighlightRect)
    (hlayer : env.textLayer = true)
    (h5 : 5 ≤ (normalizeQuery q).length)
    (hocc : (normalizeQuery q).isPrefixOf
        ((normalizedPdfText env.fragments).drop s) = true)
    (hmin : ∀ j, j < s → (normalizeQuery q).isPrefixOf
        ((normalizedPdfText env.fragments).drop j) = false)
    (hpage : env.pageRect = some p)
    (hgr : ∀ a b, env.getRects a b = Except.ok rects)
    (hr0 : r0 ∈ rects) (hw : 1 ≤ r0.width) (hh : 1 ≤ r0.height)
    (hnf : ¬(r0.width > p.width * 0.9 ∧ r0.height > p.height * 0.9)) :
    computeSpan (normalizedPdfText env.fragments) (normalizeQuery q) =
      some ⟨s, s + (normalizeQuery q).length - 1⟩ ∧
    ∃ hs, calculateHighlights env q = some hs ∧
      ∃ r, r ∈ hs ∧ 1 ≤ r.width ∧ 1 ≤ r.height := by
  obtain ⟨k, hk, hkle⟩ := firstMatch_isSome hocc
  have hks : k = s := by
    rcases Nat.lt_or_ge k s with hlt | hge
    · have hpk := (firstMatch_spec hk).1
      rw [hmin k hlt] at hpk
      exact absurd hpk (by decide)
    · omega
  subst hks
  have hspan : computeSpan (normalizedPdfText env.fragments) (normalizeQuery q) =
      some ⟨k, k + (normalizeQuery q).length - 1⟩ := by
    unfold computeSpan
    rw [hk]
  refine ⟨hspan, projectRects rects p, ?_, ?_⟩
  · obtain ⟨hne, a, b, hga, hgb⟩ := span_refs (by omega) hspan
    unfold calculateHighlights projectSpan
    simp [hlayer, hne, hspan, hga, hgb, hgr a b, hpage,
      show ¬((normalizeQuery q).length < 5) from by omega]
  · exact ⟨⟨r0.left - p.left, r0.top - p.top, r0.width, r0.height⟩,
      mem_projectRects hr0 hw hh hnf, hw, hh⟩

/-- Witness for C4: the fox page — query normalizing to `brownfoxjumps`
matches characters 8–20 (0-indexed) and a non-empty rectangle is written. -/
theorem exact_match_locates_wit :
    5 ≤ (normalizeQuery exQuery).length ∧
    (normalizeQuery exQuery).isPrefixOf ((normalizedPdfText exFrags).drop 8) = true ∧
    (∀ j, j < 8 → (normalizeQuery exQuery).isPrefixOf
        ((normalizedPdfText exFrags).drop j) = false) ∧
    computeSpan (normalizedPdfText exFrags) (normalizeQuery exQuery) = some ⟨8, 20⟩ ∧
    ∃ hs, calculateHighlights exEnv exQuery = some hs ∧
      ∃ r, r ∈ hs ∧ 1 ≤ r.width ∧ 1 ≤ r.height := by
  have h := exact_match_locates exEnv exQuery 8 [⟨10, 10, 50, 12⟩] ⟨0, 0, 600, 800⟩
    ⟨10, 10, 50, 12⟩ rfl (by decide) (by decide) (by decide) rfl (fun a b => rfl)
    (by decide) (by with_unfolding_all decide) (by with_unfolding_all decide)
    (by with_unfolding_all decide)
  refine ⟨by decide, by decide, by decide, ?_, h.2⟩
  have h13 : (normalizeQuery exQuery).length = 13 := by decide
  have hsp := h.1
  rw [h13] at hsp
  simpa using hsp
